import Mathlib

/-!
Verification of the Veryl analyzer / emitter / formatter fragments:
MSB/LSB resolution (`check_msb_lsb.rs`), the type-DAG builder
(`create_type_dag.rs`) and the two column-alignment engines
(`emitter/aligner.rs`, `formatter/aligner.rs`).

The Rust sources are shallowly embedded: pure functions become Lean
functions, the handler objects become explicit state records, and the
walker's Before/After callbacks become steps of a transition function.
External collaborators that the fragments call into (symbol table,
namespace table, parse tree) are oracles passed as parameters, shaped
after the interfaces stated in the specification.
-/

namespace Vrl

/-- Interned string id (`StrId` of the resource table): an opaque integer. -/
abbrev StrId := Nat

/-- Token of the parser (`veryl_token::Token`): source coordinates plus the
monotonically assigned `id` and the interned `text`. -/
structure Token where
  id : Nat
  text : StrId
  line : Nat
  column : Nat
  length : Nat
deriving DecidableEq, Repr

/-- Modelled from the spec: the parser's expression AST is external to the
visible fragments; the analyzer stores and compares expressions verbatim, so
we only need a syntax tree rich enough to distinguish a number literal such
as `8` from `7` and from the subtraction `8 - 1`. -/
inductive Expression where
  | lit (n : Nat)
  | sub (a b : Expression)
  | ref (id : StrId)
deriving DecidableEq, Repr

/-- Namespace: ordered chain of interned scope names. -/
abbrev Nspace := List StrId

/-- SymbolPath: ordered sequence of identifier text ids. -/
abbrev SymbolPath := List StrId

/-- SymbolPathNamespace: the lookup key of the symbol table. -/
abbrev SymbolPathNamespace := SymbolPath × Nspace

/-- Type kind (`symbol::TypeKind`): either a user-defined path or a
built-in scalar, the latter kept abstract by its rendered name. -/
inductive TypeKind where
  | userDefined (path : List StrId)
  | builtin (name : String)
deriving DecidableEq, Repr

/-- Type record (`symbol::Type`): kind plus array dimensions (outermost
first) and packed width dimensions (outermost first). -/
structure SType where
  kind : TypeKind
  array : List Expression
  width : List Expression
deriving DecidableEq, Repr

/-- Variable symbol payload. The Rust fields `prefix`/`suffix` are spelled
`pfx`/`sfx` here. -/
structure VarProp where
  typ : SType
  pfx : Option String
  sfx : Option String
deriving DecidableEq, Repr

/-- Port symbol payload (its type is optional). -/
structure PortProp where
  typ : Option SType
  pfx : Option String
  sfx : Option String
deriving DecidableEq, Repr

/-- TypeDef symbol payload. -/
structure TypeDefProp where
  typ : SType
deriving DecidableEq, Repr

/-- Symbol kind (`symbol::SymbolKind`), restricted to the variants the
fragments inspect; every other variant is collapsed into `otherKind`. -/
inductive SymbolKind where
  | variable (p : VarProp)
  | port (p : PortProp)
  | typeDef (p : TypeDefProp)
  | otherKind
deriving DecidableEq, Repr

/-- Resolved symbol record: its kind and the namespace it was found in
(`x.found.namespace` in the Rust code). -/
structure Symbol where
  kind : SymbolKind
  ns : Nspace
deriving DecidableEq, Repr

/-- Oracle for `symbol_table::resolve` on a `(path, namespace)` key:
`none` models the `Err`/not-found outcome. -/
abbrev SymbolTable := SymbolPathNamespace → Option Symbol

/-- The `trace_type` function of `check_msb_lsb.rs` (lines 43-53): the
original type followed by the flattened chain of `TypeDef` aliases reached
through `UserDefined` kinds.  The Rust recursion has no structural bound,
so the embedding carries explicit fuel; `traceType_fuel_stable` below shows
any sufficiently large fuel computes the same chain. -/
def traceType (tbl : SymbolTable) : Nat → SType → Nspace → List SType
  | 0, t, _ => [t]
  | fuel + 1, t, ns =>
    t :: (match t.kind with
      | TypeKind.userDefined x =>
        match tbl (x, ns) with
        | some s =>
          match s.kind with
          | SymbolKind.typeDef p => traceType tbl fuel p.typ ns
          | _ => []
        | none => []
      | _ => [])

/-- One alias step of `trace_type`: the underlying type of the `TypeDef`
resolved from a `UserDefined` kind, if any. -/
def aliasStep (tbl : SymbolTable) (ns : Nspace) (t : SType) : Option SType :=
  match t.kind with
  | TypeKind.userDefined x =>
    match tbl (x, ns) with
    | some s =>
      match s.kind with
      | SymbolKind.typeDef p => some p.typ
      | _ => none
    | none => none
  | _ => none

theorem traceType_succ (tbl : SymbolTable) (fuel : Nat) (t : SType) (ns : Nspace) :
    traceType tbl (fuel + 1) t ns =
      t :: (match aliasStep tbl ns t with
        | some t' => traceType tbl fuel t' ns
        | none => []) := by
  cases t with
  | mk k a w =>
    cases k with
    | userDefined x =>
      simp only [traceType, aliasStep]
      cases tbl (x, ns) with
      | none => rfl
      | some s =>
        cases s with
        | mk sk sns => cases sk <;> rfl
    | builtin n => rfl

/-- The dimension-selection loop of `CheckMsbLsb::msb` (lines 86-98):
walk the traced chain, at each type first try the `array` dimensions, then
the `width` dimensions, decrementing the counter by each skipped block. -/
def selectDimLoop : List SType → Nat → Option Expression
  | [], _ => none
  | t :: ts, k =>
    if k < t.array.length then t.array[k]?
    else if k - t.array.length < t.width.length then t.width[k - t.array.length]?
    else selectDimLoop ts (k - t.array.length - t.width.length)

/-- The combined dimension sequence of a traced chain: at each type the
entire `array` list precedes the `width` list. -/
def dimsFlat (types : List SType) : List Expression :=
  types.flatMap fun t => t.array ++ t.width

/-- The selection loop is exactly indexing into the concatenation
`t.array ++ t.width` over the traced chain. -/
theorem selectDimLoop_eq_dimsFlat (types : List SType) (k : Nat) :
    selectDimLoop types k = (dimsFlat types)[k]? := by
  induction types generalizing k with
  | nil => simp [selectDimLoop, dimsFlat]
  | cons t ts ih =>
    have hflat : dimsFlat (t :: ts) = (t.array ++ t.width) ++ dimsFlat ts := by
      simp [dimsFlat]
    rw [hflat, List.getElem?_append, List.getElem?_append]
    simp only [selectDimLoop, List.length_append]
    by_cases h1 : k < t.array.length
    · have hk : k < t.array.length + t.width.length := by omega
      simp [h1, hk]
    · by_cases h2 : k - t.array.length < t.width.length
      · have hk : k < t.array.length + t.width.length := by omega
        simp [h1, h2, hk]
      · have hk : ¬ k < t.array.length + t.width.length := by omega
        simp only [h1, if_false, h2, hk]
        rw [ih]
        congr 1
        omega

/-! ## The MSB/LSB handler (`check_msb_lsb.rs`) -/

/-- Analyzer diagnostics raised by the MSB/LSB handler, each carrying the
offending token. -/
inductive AnalyzerError where
  | invalidMsb (tok : Token)
  | invalidLsb (tok : Token)
  | unknownMsb (tok : Token)
deriving DecidableEq, Repr

/-- The MSB table (`msb_table`): token id to expression.  Insertion conses
at the front and lookup returns the first match, which gives the overwrite
semantics of duplicate insertions. -/
abbrev MsbTable := List (Nat × Expression)

def msbInsert (m : MsbTable) (k : Nat) (e : Expression) : MsbTable :=
  (k, e) :: m

def msbGet (m : MsbTable) (k : Nat) : Option Expression :=
  (m.find? fun p => p.1 = k).map Prod.snd

/-- The mutable state of the `CheckMsbLsb` handler.  The Rust `Vec` stacks
push/pop at the end and read via `.last()`; here the top of a stack is the
head of the list. -/
structure CheckMsbLsb where
  errors : List AnalyzerError := []
  identifierPath : List SymbolPathNamespace := []
  selectDimension : List Nat := []
  inExpressionIdentifier : Bool := false
  inSelect : Bool := false
deriving DecidableEq, Repr

/-- The state `CheckMsbLsb::new` starts from. -/
def CheckMsbLsb.init : CheckMsbLsb := {}

/-- Before `Lsb` (lines 56-66): outside an expression-identifier select,
report `invalid_lsb`. -/
def lsbBefore (st : CheckMsbLsb) (tok : Token) : CheckMsbLsb :=
  if st.inExpressionIdentifier && st.inSelect then st
  else { st with errors := AnalyzerError.invalidLsb tok :: st.errors }

/-- The extraction of the declared type from a resolved symbol
(lines 76-80): only `Variable` and `Port` kinds qualify. -/
def symbolType : SymbolKind → Option SType
  | SymbolKind.variable p => some p.typ
  | SymbolKind.port p => p.typ
  | _ => none

/-- The `!resolved` outcome of the `Msb` handler: report `unknown_msb`. -/
def msbUnknown (st : CheckMsbLsb) (mt : MsbTable) (tok : Token) :
    CheckMsbLsb × MsbTable :=
  ({ st with errors := AnalyzerError.unknownMsb tok :: st.errors }, mt)

/-- The body of the `Msb` handler after the symbol-table lookup (lines
71-111).  `kOpt` is the top of the `select_dimension` stack, whose `unwrap`
(`none` result) is reached only once a declared type has been extracted. -/
def msbWithType (tbl : SymbolTable) (fuel : Nat) (st : CheckMsbLsb)
    (mt : MsbTable) (tok : Token) (ns : Nspace) (t : SType) :
    Option Nat → Option (CheckMsbLsb × MsbTable)
  | none => none
  | some k =>
    match selectDimLoop (traceType tbl fuel t ns) k with
    | some e => some (st, msbInsert mt tok.id e)
    | none => some (msbUnknown st mt tok)

def msbResolved (tbl : SymbolTable) (fuel : Nat) (st : CheckMsbLsb)
    (mt : MsbTable) (tok : Token) (kOpt : Option Nat) :
    Option Symbol → Option (CheckMsbLsb × MsbTable)
  | some sym =>
    match symbolType sym.kind with
    | some t => msbWithType tbl fuel st mt tok sym.ns t kOpt
    | none => some (msbUnknown st mt tok)
  | none => some (msbUnknown st mt tok)

/-- Before `Msb` (lines 68-126).  The result is `none` exactly when one of
the `unwrap` calls on an empty stack would panic.  `fuel` bounds the
embedded `trace_type` recursion. -/
def msbBefore (tbl : SymbolTable) (fuel : Nat) (st : CheckMsbLsb)
    (mt : MsbTable) (tok : Token) : Option (CheckMsbLsb × MsbTable) :=
  if st.inExpressionIdentifier && st.inSelect then
    match st.identifierPath.head? with
    | none => none
    | some key =>
      msbResolved tbl fuel st mt tok st.selectDimension.head? (tbl key)
  else
    some ({ st with errors := AnalyzerError.invalidMsb tok :: st.errors }, mt)

/-- Before `Identifier` (lines 128-139): inside an expression-identifier,
append the token's text to the path on top of the stack. -/
def identifierBefore (st : CheckMsbLsb) (text : StrId) : Option CheckMsbLsb :=
  if st.inExpressionIdentifier then
    match st.identifierPath with
    | [] => none
    | (p, ns) :: rest => some { st with identifierPath := (p ++ [text], ns) :: rest }
  else some st

/-- Before `Select` (lines 141-145). -/
def selectBefore (st : CheckMsbLsb) : CheckMsbLsb :=
  { st with inSelect := true }

/-- After `Select` (lines 146-151): clear the flag and, inside an
expression-identifier, bump the top selection counter. -/
def selectAfter (st : CheckMsbLsb) : Option CheckMsbLsb :=
  let st := { st with inSelect := false }
  if st.inExpressionIdentifier then
    match st.selectDimension with
    | [] => none
    | k :: rest => some { st with selectDimension := (k + 1) :: rest }
  else some st

/-- Before `ExpressionIdentifier` (lines 158-165).  `nsT` is the namespace
table oracle, total per the interface contract (`namespace_table::get` is
assumed present for every identifier token). -/
def expressionIdentifierBefore (nsT : Nat → Nspace) (st : CheckMsbLsb)
    (tokId : Nat) : CheckMsbLsb :=
  { st with
    identifierPath := (([] : SymbolPath), nsT tokId) :: st.identifierPath,
    selectDimension := 0 :: st.selectDimension,
    inExpressionIdentifier := true }

/-- After `ExpressionIdentifier` (lines 166-170). -/
def expressionIdentifierAfter (st : CheckMsbLsb) : CheckMsbLsb :=
  { st with
    identifierPath := st.identifierPath.tail,
    selectDimension := st.selectDimension.tail,
    inExpressionIdentifier := false }

/-- The walker events the handler subscribes to.  `msb`, `lsb` and
`identifier` act only on their Before phase (the After phase is a no-op in
the source), `select` and `expression_identifier` act on both. -/
inductive MEvent where
  | exprIdB (tokId : Nat)
  | exprIdA
  | identB (text : StrId)
  | selB
  | selA
  | msbB (tok : Token)
  | lsbB (tok : Token)
deriving DecidableEq, Repr

/-- One dispatch of the walker to the handler; `none` models a panic of an
`unwrap` on an empty stack. -/
def mstep (tbl : SymbolTable) (nsT : Nat → Nspace) (fuel : Nat)
    (s : CheckMsbLsb × MsbTable) : MEvent → Option (CheckMsbLsb × MsbTable)
  | MEvent.exprIdB tokId => some (expressionIdentifierBefore nsT s.1 tokId, s.2)
  | MEvent.exprIdA => some (expressionIdentifierAfter s.1, s.2)
  | MEvent.identB text => (identifierBefore s.1 text).map fun st => (st, s.2)
  | MEvent.selB => some (selectBefore s.1, s.2)
  | MEvent.selA => (selectAfter s.1).map fun st => (st, s.2)
  | MEvent.msbB tok => msbBefore tbl fuel s.1 s.2 tok
  | MEvent.lsbB tok => some (lsbBefore s.1 tok, s.2)

/-- Run the handler over a walk, propagating a panic. -/
def runM (tbl : SymbolTable) (nsT : Nat → Nspace) (fuel : Nat) :
    List MEvent → CheckMsbLsb × MsbTable → Option (CheckMsbLsb × MsbTable)
  | [], s => some s
  | e :: es, s => (mstep tbl nsT fuel s e).bind (runM tbl nsT fuel es)

/-- Prefix balance of the `ExpressionIdentifier` Before/After events: the
depth counter (starting at `d`) never underflows.  Every prefix of a
properly nested walk satisfies `eiOk · 0`. -/
def eiOk : List MEvent → Nat → Bool
  | [], _ => true
  | MEvent.exprIdB _ :: es, d => eiOk es (d + 1)
  | MEvent.exprIdA :: es, d =>
    match d with
    | 0 => false
    | d' + 1 => eiOk es d'
  | _ :: es, d => eiOk es d

/-- Full characterization of the `Msb` Before handler, provided the stacks
are non-empty whenever the expression-identifier flag is set (the invariant
established by `runM_invariant_aux`): the handler never panics, leaves its
stacks and flags untouched, and either reports `invalid_msb` (outside a
select), inserts one table entry silently, or reports `unknown_msb`. -/
theorem msbBefore_spec (tbl : SymbolTable) (fuel : Nat) (st : CheckMsbLsb)
    (mt : MsbTable) (tok : Token)
    (h : st.inExpressionIdentifier = true →
      st.identifierPath ≠ [] ∧ st.selectDimension ≠ []) :
    ∃ st' mt', msbBefore tbl fuel st mt tok = some (st', mt') ∧
      st'.identifierPath = st.identifierPath ∧
      st'.selectDimension = st.selectDimension ∧
      st'.inExpressionIdentifier = st.inExpressionIdentifier ∧
      st'.inSelect = st.inSelect ∧
      ((st.inExpressionIdentifier && st.inSelect) = true →
        (st'.errors = st.errors ∧ ∃ e, mt' = msbInsert mt tok.id e) ∨
        (st'.errors = AnalyzerError.unknownMsb tok :: st.errors ∧ mt' = mt)) ∧
      ((st.inExpressionIdentifier && st.inSelect) = false →
        st'.errors = AnalyzerError.invalidMsb tok :: st.errors ∧ mt' = mt) := by
  cases hc : (st.inExpressionIdentifier && st.inSelect) with
  | false =>
    refine ⟨{ st with errors := AnalyzerError.invalidMsb tok :: st.errors }, mt,
      by simp [msbBefore, hc], rfl, rfl, rfl, rfl,
      fun ht => absurd ht (by simp),
      fun _ => ⟨rfl, rfl⟩⟩
  | true =>
    have hEI : st.inExpressionIdentifier = true := by
      revert hc
      cases st.inExpressionIdentifier <;> simp
    obtain ⟨h1, h2⟩ := h hEI
    obtain ⟨key, rest, hpath⟩ : ∃ key rest, st.identifierPath = key :: rest := by
      cases hp : st.identifierPath with
      | nil => exact absurd hp h1
      | cons a b => exact ⟨a, b, rfl⟩
    obtain ⟨k, krest, hsel⟩ : ∃ k kr, st.selectDimension = k :: kr := by
      cases hp : st.selectDimension with
      | nil => exact absurd hp h2
      | cons a b => exact ⟨a, b, rfl⟩
    have hh1 : st.identifierPath.head? = some key := by rw [hpath]; rfl
    have hh2 : st.selectDimension.head? = some k := by rw [hsel]; rfl
    simp only [msbBefore, hc, if_true, hh1, hh2]
    cases htbl : tbl key with
    | none =>
      exact ⟨{ st with errors := AnalyzerError.unknownMsb tok :: st.errors }, mt,
        rfl, rfl, rfl, rfl, rfl, fun _ => Or.inr ⟨rfl, rfl⟩,
        fun hf => absurd hf (by simp)⟩
    | some sym =>
      simp only [msbResolved]
      cases hst : symbolType sym.kind with
      | none =>
        exact ⟨{ st with errors := AnalyzerError.unknownMsb tok :: st.errors }, mt,
          rfl, rfl, rfl, rfl, rfl, fun _ => Or.inr ⟨rfl, rfl⟩,
          fun hf => absurd hf (by simp)⟩
      | some t =>
        simp only [msbWithType]
        cases hdim : selectDimLoop (traceType tbl fuel t sym.ns) k with
        | none =>
          exact ⟨{ st with errors := AnalyzerError.unknownMsb tok :: st.errors }, mt,
            rfl, rfl, rfl, rfl, rfl, fun _ => Or.inr ⟨rfl, rfl⟩,
            fun hf => absurd hf (by simp)⟩
        | some e =>
          exact ⟨st, msbInsert mt tok.id e, rfl, rfl, rfl, rfl, rfl,
            fun _ => Or.inl ⟨rfl, e, rfl⟩,
            fun hf => absurd hf (by simp)⟩

/-- C3: on the Before phase of `Msb`, outside an expression-identifier
select exactly one `invalid_msb` diagnostic is emitted at the `msb` token
and the MSB table is unchanged; inside one, either a single entry is
inserted with no diagnostic, or a single `unknown_msb` diagnostic is emitted
and the table is unchanged. -/
theorem msb_before_dichotomy (tbl : SymbolTable) (fuel : Nat)
    (st : CheckMsbLsb) (mt : MsbTable) (tok : Token)
    (h : st.inExpressionIdentifier = true →
      st.identifierPath ≠ [] ∧ st.selectDimension ≠ []) :
    (¬ (st.inExpressionIdentifier = true ∧ st.inSelect = true) →
      msbBefore tbl fuel st mt tok =
        some ({ st with errors := AnalyzerError.invalidMsb tok :: st.errors }, mt)) ∧
    (st.inExpressionIdentifier = true ∧ st.inSelect = true →
      ∃ st' mt', msbBefore tbl fuel st mt tok = some (st', mt') ∧
        ((st'.errors = st.errors ∧ ∃ e, mt' = msbInsert mt tok.id e) ∨
         (st'.errors = AnalyzerError.unknownMsb tok :: st.errors ∧ mt' = mt))) := by
  constructor
  · intro hn
    have hc : (st.inExpressionIdentifier && st.inSelect) = false := by
      cases hEI : st.inExpressionIdentifier <;> cases hS : st.inSelect <;> simp_all
    simp [msbBefore, hc]
  · intro hp
    have hc : (st.inExpressionIdentifier && st.inSelect) = true := by
      simp [hp.1, hp.2]
    obtain ⟨st', mt', heq, _, _, _, _, htrue, _⟩ := msbBefore_spec tbl fuel st mt tok h
    exact ⟨st', mt', heq, htrue hc⟩

def c3tok : Token := ⟨5, 1, 2, 4, 3⟩

theorem msb_before_dichotomy_witness :
    msbBefore (fun _ => none) 1 CheckMsbLsb.init [] c3tok =
      some ({ CheckMsbLsb.init with errors := [AnalyzerError.invalidMsb c3tok] }, []) := by
  have h := (msb_before_dichotomy (fun _ => none) 1 CheckMsbLsb.init [] c3tok
    (fun hEI => absurd hEI (by decide))).1 (by decide)
  simpa using h

/-- C1: inside an expression-identifier select, once the identifier on top
of the path stack resolves to a symbol with a declared type, the expression
recorded for `msb` is the `k`-th entry of the dimension sequence obtained by
concatenating, over the traced type chain in order, each type's `array`
dimensions followed by its `width` dimensions, where `k` is the top of the
`select_dimension` stack; if the combined sequence has no `k`-th entry,
`unknown_msb` is reported instead. -/
theorem msb_dimension_selection (tbl : SymbolTable) (fuel : Nat)
    (st : CheckMsbLsb) (mt : MsbTable) (tok : Token)
    (key : SymbolPathNamespace) (rest : List SymbolPathNamespace)
    (k : Nat) (krest : List Nat) (sym : Symbol) (t : SType)
    (hEI : st.inExpressionIdentifier = true) (hSel : st.inSelect = true)
    (hpath : st.identifierPath = key :: rest)
    (hsel : st.selectDimension = k :: krest)
    (hres : tbl key = some sym)
    (ht : symbolType sym.kind = some t) :
    msbBefore tbl fuel st mt tok =
      some (match (dimsFlat (traceType tbl fuel t sym.ns))[k]? with
        | some e => (st, msbInsert mt tok.id e)
        | none => msbUnknown st mt tok) := by
  have hc : (st.inExpressionIdentifier && st.inSelect) = true := by
    simp [hEI, hSel]
  have hh1 : st.identifierPath.head? = some key := by rw [hpath]; rfl
  have hh2 : st.selectDimension.head? = some k := by rw [hsel]; rfl
  simp only [msbBefore, hc, if_true, hh1, hh2, hres, msbResolved, ht, msbWithType]
  rw [selectDimLoop_eq_dimsFlat]
  cases (dimsFlat (traceType tbl fuel t sym.ns))[k]? <;> rfl

/-- Concrete scenario for the C1 witness: `a[msb]` selecting dimension 1 of
a variable declared `logic<8> [4]` (array dimension `4`, width dimension
`8`); the combined sequence is `[4, 8]` and entry 1 is the width `8`. -/
def c1sym : Symbol :=
  { kind := SymbolKind.variable
      ⟨⟨TypeKind.builtin "logic", [Expression.lit 4], [Expression.lit 8]⟩, none, none⟩,
    ns := [1] }

def c1tbl : SymbolTable := fun key => if key = ([7], [1]) then some c1sym else none

def c1st : CheckMsbLsb :=
  { identifierPath := [([7], [1])], selectDimension := [1],
    inExpressionIdentifier := true, inSelect := true }

def c1tok : Token := ⟨10, 7, 1, 3, 3⟩

theorem msb_dimension_selection_witness :
    msbBefore c1tbl 1 c1st [] c1tok = some (c1st, msbInsert [] 10 (Expression.lit 8)) := by
  have h := msb_dimension_selection c1tbl 1 c1st [] c1tok ([7], [1]) [] 1 [] c1sym
    ⟨TypeKind.builtin "logic", [Expression.lit 4], [Expression.lit 8]⟩
    rfl rfl rfl rfl (by decide) (by decide)
  rw [h]
  rfl

/-- Concrete scenario for C2: `a[msb]` where `a` is declared `logic<8>`
(no array dimensions, one width dimension whose expression is the literal
`8`). -/
def c2sym : Symbol :=
  { kind := SymbolKind.variable
      ⟨⟨TypeKind.builtin "logic", [], [Expression.lit 8]⟩, none, none⟩,
    ns := [2] }

def c2tbl : SymbolTable := fun key => if key = ([3], [2]) then some c2sym else none

def c2st : CheckMsbLsb :=
  { identifierPath := [([3], [2])], selectDimension := [0],
    inExpressionIdentifier := true, inSelect := true }

def c2tok : Token := ⟨42, 9, 1, 3, 3⟩

/-- C2 counterexample: for `a[msb]` with `a : logic<8>` the entry inserted
into the MSB table for the `msb` token is the declared width expression `8`
itself, which is neither the literal `7` nor the verbatim subtraction
`8 - 1` that the claim asserts. -/
theorem msb_table_minus_one_counterexample :
    msbBefore c2tbl 1 c2st [] c2tok = some (c2st, [(42, Expression.lit 8)]) ∧
    Expression.lit 8 ≠ Expression.lit 7 ∧
    Expression.lit 8 ≠ Expression.sub (Expression.lit 8) (Expression.lit 1) := by
  refine ⟨by decide, by decide, by decide⟩

/-- C2 amended: for `a[msb]` with `a : logic<8>`, after the MSB/LSB pass
the MSB table maps the `msb` token id to the declared width expression `8`
taken verbatim (the bound of the selected dimension, not decremented), and
no diagnostic is emitted. -/
theorem msb_table_stores_width :
    msbBefore c2tbl 1 c2st [] c2tok =
      some (c2st, msbInsert [] c2tok.id (Expression.lit 8)) ∧
    msbGet (msbInsert [] c2tok.id (Expression.lit 8)) c2tok.id =
      some (Expression.lit 8) ∧
    c2st.errors = [] := by
  refine ⟨by decide, by decide, rfl⟩

/-! ## Stack-safety invariant of the MSB/LSB handler walk -/

/-- The handler invariant: both stacks have exactly the expression-identifier
nesting depth `d` as length, and the flag implies a strictly positive depth. -/
def msbInv (s : CheckMsbLsb) (d : Nat) : Prop :=
  s.identifierPath.length = d ∧ s.selectDimension.length = d ∧
    (s.inExpressionIdentifier = true → 1 ≤ d)

theorem lsbBefore_fields (st : CheckMsbLsb) (tok : Token) :
    (lsbBefore st tok).identifierPath = st.identifierPath ∧
    (lsbBefore st tok).selectDimension = st.selectDimension ∧
    (lsbBefore st tok).inExpressionIdentifier = st.inExpressionIdentifier := by
  unfold lsbBefore
  split <;> exact ⟨rfl, rfl, rfl⟩

theorem runM_invariant_aux (tbl : SymbolTable) (nsT : Nat → Nspace) (fuel : Nat) :
    ∀ (es : List MEvent) (s : CheckMsbLsb × MsbTable) (d : Nat),
      eiOk es d = true → msbInv s.1 d →
      ∃ s' d', runM tbl nsT fuel es s = some s' ∧ msbInv s'.1 d' := by
  intro es
  induction es with
  | nil => exact fun s d _ h => ⟨s, d, rfl, h⟩
  | cons e es ih =>
    intro s d hok hinv
    obtain ⟨hl1, hl2, hEId⟩ := hinv
    cases e with
    | exprIdB tokId =>
      obtain ⟨s', d', hrun, hinv'⟩ := ih (expressionIdentifierBefore nsT s.1 tokId, s.2)
        (d + 1) hok
        ⟨by simp [expressionIdentifierBefore, hl1],
         by simp [expressionIdentifierBefore, hl2],
         fun _ => Nat.succ_le_succ (Nat.zero_le d)⟩
      exact ⟨s', d', by simpa [runM, mstep] using hrun, hinv'⟩
    | exprIdA =>
      cases d with
      | zero => simp [eiOk] at hok
      | succ d0 =>
        obtain ⟨s', d', hrun, hinv'⟩ := ih (expressionIdentifierAfter s.1, s.2) d0 hok
          ⟨by simp [expressionIdentifierAfter, hl1],
           by simp [expressionIdentifierAfter, hl2],
           fun hf => by simp [expressionIdentifierAfter] at hf⟩
        exact ⟨s', d', by simpa [runM, mstep] using hrun, hinv'⟩
    | identB text =>
      cases hEIb : s.1.inExpressionIdentifier with
      | false =>
        obtain ⟨s', d', hrun, hinv'⟩ := ih (s.1, s.2) d hok ⟨hl1, hl2, hEId⟩
        exact ⟨s', d', by simpa [runM, mstep, identifierBefore, hEIb] using hrun, hinv'⟩
      | true =>
        obtain ⟨p, ns, rest, hpath⟩ : ∃ p ns rest, s.1.identifierPath = (p, ns) :: rest := by
          have hd := hEId hEIb
          cases hp : s.1.identifierPath with
          | nil => rw [hp] at hl1; simp at hl1; omega
          | cons a b => exact ⟨a.1, a.2, b, rfl⟩
        have hib : identifierBefore s.1 text =
            some { s.1 with identifierPath := (p ++ [text], ns) :: rest } := by
          simp [identifierBefore, hEIb, hpath]
        obtain ⟨s', d', hrun, hinv'⟩ :=
          ih ({ s.1 with identifierPath := (p ++ [text], ns) :: rest }, s.2) d hok
            ⟨by rw [hpath] at hl1; simpa using hl1, hl2, hEId⟩
        exact ⟨s', d', by simpa [runM, mstep, hib] using hrun, hinv'⟩
    | selB =>
      obtain ⟨s', d', hrun, hinv'⟩ := ih (selectBefore s.1, s.2) d hok
        ⟨hl1, hl2, hEId⟩
      exact ⟨s', d', by simpa [runM, mstep] using hrun, hinv'⟩
    | selA =>
      cases hEIb : s.1.inExpressionIdentifier with
      | false =>
        have hsa : selectAfter s.1 = some { s.1 with inSelect := false } := by
          simp [selectAfter, hEIb]
        obtain ⟨s', d', hrun, hinv'⟩ := ih ({ s.1 with inSelect := false }, s.2) d hok
          ⟨hl1, hl2, hEId⟩
        exact ⟨s', d', by simpa [runM, mstep, hsa] using hrun, hinv'⟩
      | true =>
        obtain ⟨k, krest, hsel⟩ : ∃ k kr, s.1.selectDimension = k :: kr := by
          have hd := hEId hEIb
          cases hp : s.1.selectDimension with
          | nil => rw [hp] at hl2; simp at hl2; omega
          | cons a b => exact ⟨a, b, rfl⟩
        have hsa : selectAfter s.1 =
            some { s.1 with inSelect := false, selectDimension := (k + 1) :: krest } := by
          simp [selectAfter, hEIb, hsel]
        obtain ⟨s', d', hrun, hinv'⟩ :=
          ih ({ s.1 with inSelect := false, selectDimension := (k + 1) :: krest }, s.2) d hok
            ⟨hl1, by rw [hsel] at hl2; simpa using hl2, hEId⟩
        exact ⟨s', d', by simpa [runM, mstep, hsa] using hrun, hinv'⟩
    | msbB tok =>
      have hstacks : s.1.inExpressionIdentifier = true →
          s.1.identifierPath ≠ [] ∧ s.1.selectDimension ≠ [] := by
        intro hb
        have hd := hEId hb
        constructor
        · intro hnil; rw [hnil] at hl1; simp at hl1; omega
        · intro hnil; rw [hnil] at hl2; simp at hl2; omega
      obtain ⟨st', mt', heq, hp1, hp2, hp3, _, _, _⟩ :=
        msbBefore_spec tbl fuel s.1 s.2 tok hstacks
      obtain ⟨s', d', hrun, hinv'⟩ := ih (st', mt') d hok
        ⟨by rw [hp1]; exact hl1, by rw [hp2]; exact hl2,
         fun hb => hEId (hp3.symm.trans hb)⟩
      exact ⟨s', d', by simpa [runM, mstep, heq] using hrun, hinv'⟩
    | lsbB tok =>
      obtain ⟨hf1, hf2, hf3⟩ := lsbBefore_fields s.1 tok
      obtain ⟨s', d', hrun, hinv'⟩ := ih (lsbBefore s.1 tok, s.2) d hok
        ⟨by rw [hf1]; exact hl1, by rw [hf2]; exact hl2,
         fun hb => hEId (hf3.symm.trans hb)⟩
      exact ⟨s', d', by simpa [runM, mstep] using hrun, hinv'⟩

/-- C9: along any walk whose `ExpressionIdentifier` Before/After events are
prefix-balanced (which holds at every point of a balanced, properly nested
walk), the handler run from the initial state never panics — every `unwrap`
on the tops of the `identifier_path` / `select_dimension` stacks succeeds —
and whenever `in_expression_identifier` is set both stacks are non-empty. -/
theorem msb_stack_unwraps_safe (tbl : SymbolTable) (nsT : Nat → Nspace)
    (fuel : Nat) (es : List MEvent) (h : eiOk es 0 = true) :
    (runM tbl nsT fuel es (CheckMsbLsb.init, [])).isSome = true ∧
    ∀ s', runM tbl nsT fuel es (CheckMsbLsb.init, []) = some s' →
      s'.1.inExpressionIdentifier = true →
      s'.1.identifierPath ≠ [] ∧ s'.1.selectDimension ≠ [] := by
  obtain ⟨s', d', hrun, hi1, hi2, hi3⟩ :=
    runM_invariant_aux tbl nsT fuel es (CheckMsbLsb.init, []) 0 h
      ⟨rfl, rfl, fun hb => by simp [CheckMsbLsb.init] at hb⟩
  constructor
  · rw [hrun]; rfl
  · intro s'' hs'' hb
    rw [hrun] at hs''
    cases hs''
    have hd := hi3 hb
    constructor
    · intro hnil; rw [hnil] at hi1; simp at hi1; omega
    · intro hnil; rw [hnil] at hi2; simp at hi2; omega

def c9events : List MEvent :=
  [MEvent.exprIdB 0, MEvent.identB 5, MEvent.selB, MEvent.msbB c3tok,
   MEvent.selA, MEvent.exprIdA]

theorem msb_stack_unwraps_safe_witness :
    (runM (fun _ => none) (fun _ => []) 1 c9events (CheckMsbLsb.init, [])).isSome = true :=
  (msb_stack_unwraps_safe (fun _ => none) (fun _ => []) 1 c9events (by decide)).1

/-! ## Termination of the type trace (C8) -/

theorem traceType_mem_le (tbl : SymbolTable) (ns : Nspace) (m : SType → Nat)
    (hdec : ∀ t t', aliasStep tbl ns t = some t' → m t' < m t) :
    ∀ (fuel : Nat) (t u : SType), u ∈ traceType tbl fuel t ns → m u ≤ m t := by
  intro fuel
  induction fuel with
  | zero =>
    intro t u hu
    simp [traceType] at hu
    exact le_of_eq (by rw [hu])
  | succ f ih =>
    intro t u hu
    rw [traceType_succ] at hu
    rcases List.mem_cons.mp hu with h | h
    · exact le_of_eq (by rw [h])
    · cases ha : aliasStep tbl ns t with
      | none => rw [ha] at h; simp at h
      | some t' =>
        rw [ha] at h
        exact le_of_lt (lt_of_le_of_lt (ih t' u h) (hdec t t' ha))

theorem traceType_nodup (tbl : SymbolTable) (ns : Nspace) (m : SType → Nat)
    (hdec : ∀ t t', aliasStep tbl ns t = some t' → m t' < m t) :
    ∀ (fuel : Nat) (t : SType), (traceType tbl fuel t ns).Nodup := by
  intro fuel
  induction fuel with
  | zero => intro t; simp [traceType]
  | succ f ih =>
    intro t
    rw [traceType_succ]
    cases ha : aliasStep tbl ns t with
    | none => simp
    | some t' =>
      refine List.nodup_cons.mpr ⟨?_, ih t'⟩
      intro hmem
      have h1 := traceType_mem_le tbl ns m hdec f t' t hmem
      have h2 := hdec t t' ha
      omega

theorem traceType_fuel_stable (tbl : SymbolTable) (ns : Nspace) (m : SType → Nat)
    (hdec : ∀ t t', aliasStep tbl ns t = some t' → m t' < m t) :
    ∀ (n : Nat) (t : SType) (f g : Nat), m t ≤ n → m t < f → m t < g →
      traceType tbl f t ns = traceType tbl g t ns := by
  intro n
  induction n with
  | zero =>
    intro t f g hn hf hg
    obtain ⟨f', rfl⟩ : ∃ f', f = f' + 1 := ⟨f - 1, by omega⟩
    obtain ⟨g', rfl⟩ : ∃ g', g = g' + 1 := ⟨g - 1, by omega⟩
    rw [traceType_succ, traceType_succ]
    cases ha : aliasStep tbl ns t with
    | none => rfl
    | some t' => exact absurd (hdec t t' ha) (by omega)
  | succ n ih =>
    intro t f g hn hf hg
    obtain ⟨f', rfl⟩ : ∃ f', f = f' + 1 := ⟨f - 1, by omega⟩
    obtain ⟨g', rfl⟩ : ∃ g', g = g' + 1 := ⟨g - 1, by omega⟩
    rw [traceType_succ, traceType_succ]
    cases ha : aliasStep tbl ns t with
    | none => rfl
    | some t' =>
      have hlt := hdec t t' ha
      show t :: traceType tbl f' t' ns = t :: traceType tbl g' t' ns
      rw [ih t' f' g' (by omega) (by omega) (by omega)]

/-- C8: when the `TypeDef` alias chains reachable through `UserDefined`
kinds are acyclic — witnessed by a measure that strictly decreases along
every alias step, the discipline the type DAG guarantees — the type trace
of the MSB resolver terminates (its value is independent of any
sufficiently large fuel) and never visits the same type twice, so it never
recurses into the same `TypeDef` twice. -/
theorem trace_type_terminates (tbl : SymbolTable) (ns : Nspace) (m : SType → Nat)
    (hdec : ∀ t t', aliasStep tbl ns t = some t' → m t' < m t) (t : SType) :
    (∀ f g, m t < f → m t < g → traceType tbl f t ns = traceType tbl g t ns) ∧
    (∀ fuel, (traceType tbl fuel t ns).Nodup) :=
  ⟨fun f g hf hg => traceType_fuel_stable tbl ns m hdec (m t) t f g le_rfl hf hg,
   fun fuel => traceType_nodup tbl ns m hdec fuel t⟩

/-- Witness table for C8: a single `TypeDef` alias `[0] ↦ logic<8>`. -/
def c8logic : SType := ⟨TypeKind.builtin "logic", [], [Expression.lit 8]⟩

def c8sym : Symbol := { kind := SymbolKind.typeDef ⟨c8logic⟩, ns := [] }

def c8tbl : SymbolTable := fun key => if key = ([0], []) then some c8sym else none

def c8t : SType := ⟨TypeKind.userDefined [0], [], []⟩

def c8mu : SType → Nat := fun u =>
  match u.kind with
  | TypeKind.userDefined _ => 1
  | _ => 0

theorem c8hdec : ∀ t t', aliasStep c8tbl [] t = some t' → c8mu t' < c8mu t := by
  intro t t' h
  obtain ⟨tk, ta, tw⟩ := t
  cases tk with
  | builtin n => simp [aliasStep] at h
  | userDefined p =>
    simp only [aliasStep] at h
    by_cases hp : ((p, ([] : Nspace)) = (([0] : SymbolPath), ([] : Nspace)))
    · rw [show c8tbl (p, []) = some c8sym from by simp [c8tbl, hp]] at h
      simp only [c8sym] at h
      obtain rfl : c8logic = t' := by simpa using h
      simp [c8mu, c8logic]
    · rw [show c8tbl (p, []) = none from by simp [c8tbl, hp]] at h
      simp at h

theorem trace_type_terminates_witness :
    traceType c8tbl 5 c8t [] = traceType c8tbl 2 c8t [] ∧
      (traceType c8tbl 5 c8t []).Nodup := by
  have h := trace_type_terminates c8tbl [] c8mu c8hdec c8t
  exact ⟨h.1 5 2 (by decide) (by decide), h.2 5⟩

/-! ## The type-DAG builder (`create_type_dag.rs`) -/

/-- The contextual tag of DAG edges (`type_dag::Context`). -/
inductive DagContext where
  | ctxStruct
  | ctxUnion
  | ctxEnum
  | ctxModport
  | ctxModule
  | ctxInterface
  | ctxPackage
  | ctxExpressionIdentifier
deriving DecidableEq, Repr

/-- The state of the `CreateTypeDag` handler that the `ScopedIdentifier`
callback consults: the parent stack, the context stack (top at the head)
and the per-parent owned sets. -/
structure CreateTypeDag where
  parent : List Nat := []
  ctx : List DagContext := []
  owned : List (Nat × List Nat) := []
deriving DecidableEq, Repr

/-- `CreateTypeDag::is_owned` (lines 99-105). -/
def isOwned (st : CreateTypeDag) (p c : Nat) : Bool :=
  match st.owned.find? fun pr => pr.1 = p with
  | some pr => pr.2.contains c
  | none => false

/-- What the Before phase of `scoped_identifier` (lines 173-188) does:
whether `insert_node` is called for the reference, and the
`insert_edge(parent, child, ctx)` request issued, if any (the argument
order is the one at the `insert_edge` call site, before the reversal
inside that helper). -/
structure ScopedIdResult where
  attempted : Bool
  edge : Option (Nat × Nat × DagContext)
deriving DecidableEq, Repr

/-- Before `ScopedIdentifier`: `insRes` is the outcome of the external
`type_dag::insert_node` call (`none` when it fails and only a diagnostic
is recorded). -/
def scopedIdentifierBefore (st : CreateTypeDag) (insRes : Option Nat) :
    ScopedIdResult :=
  match st.ctx.head? with
  | none => ⟨false, none⟩
  | some c =>
    if c = DagContext.ctxExpressionIdentifier then ⟨false, none⟩
    else
      match st.parent.head?, insRes with
      | some p, some ch =>
        if isOwned st p ch then ⟨true, none⟩ else ⟨true, some (p, ch, c)⟩
      | some _, none => ⟨true, none⟩
      | none, _ => ⟨true, none⟩

/-- C6: the `ScopedIdentifier` Before handler attempts to insert a
reference node exactly when the context stack is non-empty and its top is
not `ExpressionIdentifier`, and it requests an edge from the current
parent to the child exactly when additionally a parent exists, the node
insertion succeeded, and the child is not in the parent's owned set; in
every other case no edge is added. -/
theorem scoped_identifier_edge_condition (st : CreateTypeDag)
    (insRes : Option Nat) :
    ((scopedIdentifierBefore st insRes).attempted = true ↔
      (st.ctx ≠ [] ∧ st.ctx.head? ≠ some DagContext.ctxExpressionIdentifier)) ∧
    (∀ p ch c, (scopedIdentifierBefore st insRes).edge = some (p, ch, c) ↔
      (st.ctx.head? = some c ∧ c ≠ DagContext.ctxExpressionIdentifier ∧
       st.parent.head? = some p ∧ insRes = some ch ∧ isOwned st p ch = false)) := by
  obtain ⟨par, ctx, ow⟩ := st
  cases ctx with
  | nil =>
    constructor
    · simp [scopedIdentifierBefore]
    · intro p ch c
      simp [scopedIdentifierBefore]
  | cons c0 cs =>
    by_cases hcc : c0 = DagContext.ctxExpressionIdentifier
    · subst hcc
      constructor
      · simp [scopedIdentifierBefore]
      · intro p ch c
        simp only [scopedIdentifierBefore, List.head?_cons, if_pos rfl]
        simp only [Option.some.injEq]
        constructor
        · intro h; exact absurd h (by simp)
        · rintro ⟨rfl, h2, -⟩
          exact absurd rfl h2
    · cases par with
      | nil =>
        constructor
        · simp [scopedIdentifierBefore, hcc]
        · intro p ch c
          simp [scopedIdentifierBefore, hcc]
      | cons p0 ps =>
        cases insRes with
        | none =>
          constructor
          · simp [scopedIdentifierBefore, hcc]
          · intro p ch c
            simp [scopedIdentifierBefore, hcc]
        | some ch0 =>
          by_cases how :
              isOwned ⟨p0 :: ps, c0 :: cs, ow⟩ p0 ch0 = true
          · constructor
            · simp [scopedIdentifierBefore, hcc, how]
            · intro p ch c
              simp only [scopedIdentifierBefore, List.head?_cons, if_neg hcc, how,
                if_true, Option.some.injEq]
              constructor
              · intro h; exact absurd h (by simp)
              · rintro ⟨rfl, h2, rfl, rfl, h5⟩
                rw [how] at h5
                exact absurd h5 (by simp)
          · have how' : isOwned ⟨p0 :: ps, c0 :: cs, ow⟩ p0 ch0 = false := by
              simpa using how
            constructor
            · simp [scopedIdentifierBefore, hcc, how']
            · intro p ch c
              simp only [scopedIdentifierBefore, List.head?_cons, if_neg hcc, how',
                Bool.false_eq_true, if_false, Option.some.injEq, Prod.mk.injEq]
              constructor
              · rintro ⟨rfl, rfl, rfl⟩
                exact ⟨rfl, hcc, rfl, rfl, how'⟩
              · rintro ⟨rfl, h2, rfl, rfl, -⟩
                exact ⟨rfl, rfl, rfl⟩

/-! ## The column-alignment engines (`emitter/aligner.rs`, `formatter/aligner.rs`) -/

/-- Location key of the additions map (emitter `aligner.rs` lines 12-18).
The formatter's `Location` has no `duplicated` tag; its tokens always carry
`none` here. -/
structure Location where
  line : Nat
  column : Nat
  length : Nat
  duplicated : Option Nat := none
deriving DecidableEq, Repr

/-- `impl From<Token> for Location`. -/
def Location.ofToken (t : Token) : Location :=
  { line := t.line, column := t.column, length := t.length, duplicated := none }

/-- The per-kind `Align` accumulator (identical fields in both files). -/
structure Align where
  enable : Bool := false
  index : Nat := 0
  maxWidth : Nat := 0
  width : Nat := 0
  line : Nat := 0
  rest : List (Location × Nat) := []
  additions : List (Location × Nat) := []
  lastLocation : Option Location := none
deriving DecidableEq, Repr

/-- `HashMap::insert` on an association list: overwrite the first entry
with this key, else append. -/
def insertOver : List (Location × Nat) → Location → Nat → List (Location × Nat)
  | [], k, v => [(k, v)]
  | p :: rest, k, v =>
    if p.1 = k then (k, v) :: rest else p :: insertOver rest k v

/-- `entry(k).and_modify(|val| val += v).or_insert(v)` on an association
list. -/
def insertAdd : List (Location × Nat) → Location → Nat → List (Location × Nat)
  | [], k, v => [(k, v)]
  | p :: rest, k, v =>
    if p.1 = k then (p.1, p.2 + v) :: rest else p :: insertAdd rest k v

/-- HashMap lookup (first match). -/
def lookupLoc : List (Location × Nat) → Location → Option Nat
  | [], _ => none
  | p :: rest, k => if p.1 = k then some p.2 else lookupLoc rest k

/-- Lookup defaulting to zero: tokens without an entry get no padding. -/
def getLoc : List (Location × Nat) → Location → Nat
  | [], _ => 0
  | p :: rest, k => if p.1 = k then p.2 else getLoc rest k

/-- `Align::finish_group` (emitter lines 55-61, formatter lines 46-52). -/
def Align.finishGroup (a : Align) : Align :=
  { a with
    additions := a.rest.foldl (fun m p => insertOver m p.1 (a.maxWidth - p.2)) a.additions,
    rest := [], maxWidth := 0 }

/-- `Align::finish_item` (emitter lines 63-79, formatter lines 54-67):
clear `enable`; when a last location exists, first close the group on a
blank line (strictly more than one line of distance), then fold the
finished item into `max_width` and `rest`.  Clearing `enable` commutes
with `finish_group` (which never reads it), so it is folded into the final
update here. -/
def Align.finishItem (a : Align) : Align :=
  match a.lastLocation with
  | none => { a with enable := false }
  | some loc =>
    { (if loc.line - a.line > 1 then a.finishGroup else a) with
      enable := false,
      maxWidth := Nat.max (if loc.line - a.line > 1 then a.finishGroup else a).maxWidth
        (if loc.line - a.line > 1 then a.finishGroup else a).width,
      line := loc.line,
      rest := (if loc.line - a.line > 1 then a.finishGroup else a).rest ++
        [(loc, (if loc.line - a.line > 1 then a.finishGroup else a).width)],
      width := 0,
      index := (if loc.line - a.line > 1 then a.finishGroup else a).index + 1 }

/-- `Align::start_item`. -/
def Align.startItem (a : Align) : Align := { a with enable := true, width := 0 }

/-- `Align::token`. -/
def Align.token (a : Align) (t : Token) : Align :=
  if a.enable then
    { a with width := a.width + t.length, lastLocation := some (Location.ofToken t) }
  else a

/-- `Align::dummy_location`: a zero-length token at an explicit location. -/
def Align.dummyLocation (a : Align) (loc : Location) : Align :=
  if a.enable then { a with lastLocation := some loc } else a

/-- `Align::duplicated_token` (emitter only). -/
def Align.duplicatedToken (a : Align) (t : Token) (i : Nat) : Align :=
  if a.enable then
    { a with width := a.width + t.length,
             lastLocation := some { Location.ofToken t with duplicated := some i } }
  else a

/-- `Align::dummy_token` (formatter only). -/
def Align.dummyToken (a : Align) (t : Token) : Align :=
  if a.enable then { a with lastLocation := some (Location.ofToken t) } else a

/-- `Align::space`. -/
def Align.space (a : Align) (n : Nat) : Align :=
  if a.enable then { a with width := a.width + n } else a

/-- The aligner engine state over `n` alignment kinds (8 for the emitter,
9 for the formatter with its extra `CLOCK_DOMAIN` kind). -/
structure AlignerSt (n : Nat) where
  additions : List (Location × Nat) := []
  aligns : Fin n → Align := fun _ => {}
  inExpression : List Unit := []

def updAlign {n : Nat} (st : AlignerSt n) (i : Fin n) (f : Align → Align) :
    AlignerSt n :=
  { st with aligns := fun j => if j = i then f (st.aligns j) else st.aligns j }

def mapAligns {n : Nat} (st : AlignerSt n) (f : Align → Align) : AlignerSt n :=
  { st with aligns := fun j => f (st.aligns j) }

/-- The primitive operations the emitter aligner's walker overrides perform
on the engine state.  Every handler body in `emitter/aligner.rs` is a
straight-line composition of these: `tokenAll` is `veryl_token` (broadcast
to every kind), `spaceAll` is `Aligner::space`, the per-kind item calls map
one-to-one, `dummyAtLast i src` is
`aligns[i].dummy_location(aligns[src].last_location.unwrap())`, and
`finishGroupAll` is `reset_align`.  The emitter never writes the public
`additions` map during the walk. -/
inductive EEvent where
  | tokenAll (t : Token)
  | spaceAll (k : Nat)
  | startItem (i : Fin 8)
  | finishItem (i : Fin 8)
  | dummyLocation (i : Fin 8) (loc : Location)
  | dummyAtLast (i src : Fin 8)
  | duplicatedToken (i : Fin 8) (t : Token) (idx : Nat)
  | finishGroupAll
  | inExprPush
  | inExprPop

def applyE (st : AlignerSt 8) : EEvent → AlignerSt 8
  | EEvent.tokenAll t => mapAligns st fun a => a.token t
  | EEvent.spaceAll k => mapAligns st fun a => a.space k
  | EEvent.startItem i => updAlign st i Align.startItem
  | EEvent.finishItem i => updAlign st i Align.finishItem
  | EEvent.dummyLocation i loc => updAlign st i fun a => a.dummyLocation loc
  | EEvent.dummyAtLast i src =>
    match (st.aligns src).lastLocation with
    | some loc => updAlign st i fun a => a.dummyLocation loc
    | none => st
  | EEvent.duplicatedToken i t idx => updAlign st i fun a => a.duplicatedToken t idx
  | EEvent.finishGroupAll => mapAligns st Align.finishGroup
  | EEvent.inExprPush => { st with inExpression := () :: st.inExpression }
  | EEvent.inExprPop => { st with inExpression := st.inExpression.tail }

def runE (es : List EEvent) (st : AlignerSt 8) : AlignerSt 8 :=
  es.foldl applyE st

/-- The primitive operations of the formatter aligner.  It has no
`duplicated_token`, but adds `dummyToken` and the direct `insertDirect`
(`Aligner::insert`, formatter lines 151-157), which writes straight into
the public `additions` map during the walk. -/
inductive FEvent where
  | tokenAll (t : Token)
  | spaceAll (k : Nat)
  | startItem (i : Fin 9)
  | finishItem (i : Fin 9)
  | dummyLocation (i : Fin 9) (loc : Location)
  | dummyAtLast (i src : Fin 9)
  | dummyToken (i : Fin 9) (t : Token)
  | insertDirect (t : Token) (w : Nat)
  | finishGroupAll
  | inExprPush
  | inExprPop

def applyF (st : AlignerSt 9) : FEvent → AlignerSt 9
  | FEvent.tokenAll t => mapAligns st fun a => a.token t
  | FEvent.spaceAll k => mapAligns st fun a => a.space k
  | FEvent.startItem i => updAlign st i Align.startItem
  | FEvent.finishItem i => updAlign st i Align.finishItem
  | FEvent.dummyLocation i loc => updAlign st i fun a => a.dummyLocation loc
  | FEvent.dummyAtLast i src =>
    match (st.aligns src).lastLocation with
    | some loc => updAlign st i fun a => a.dummyLocation loc
    | none => st
  | FEvent.dummyToken i t => updAlign st i fun a => a.dummyToken t
  | FEvent.insertDirect t w =>
    { st with additions := insertAdd st.additions (Location.ofToken t) w }
  | FEvent.finishGroupAll => mapAligns st Align.finishGroup
  | FEvent.inExprPush => { st with inExpression := () :: st.inExpression }
  | FEvent.inExprPop => { st with inExpression := st.inExpression.tail }

def runF (fs : List FEvent) (st : AlignerSt 9) : AlignerSt 9 :=
  fs.foldl applyF st

/-- `Aligner::finish_group` (the engine-level loop over all kinds). -/
def finishAll {n : Nat} (st : AlignerSt n) : AlignerSt n :=
  mapAligns st Align.finishGroup

/-- Merge one kind's additions into the public map by summing at identical
locations. -/
def mergeList (pub adds : List (Location × Nat)) : List (Location × Nat) :=
  adds.foldl (fun acc p => insertAdd acc p.1 p.2) pub

/-- The merge loop of `Aligner::align`: fold every kind's additions into
the engine's public map. -/
def mergeAll {n : Nat} (st : AlignerSt n) : List (Location × Nat) :=
  (List.finRange n).foldl
    (fun pub i => mergeList pub ((st.aligns i).additions)) st.additions

/-- The tail of `Aligner::align` after the walk: `finish_group()` once per
kind, then merge all per-kind additions into the public map. -/
def alignRun {n : Nat} (st : AlignerSt n) : AlignerSt n :=
  let st1 := finishAll st
  { st1 with additions := mergeAll st1 }

/-- `Aligner::align` of the emitter on a walk given by its primitive
operations, starting from `Aligner::new()`. -/
def alignE (es : List EEvent) : AlignerSt 8 := alignRun (runE es {})

/-- `Aligner::align` of the formatter. -/
def alignF (fs : List FEvent) : AlignerSt 9 := alignRun (runF fs {})

/-! ## Resolve behavior of the emitter aligner (C4) -/

/-- `Aligner::identifier` (emitter lines 297-308): the `(prefix, suffix)`
pair applied to the identifier, given the outcome of
`symbol_table::resolve`; a failed resolve degrades to `(None, None)`. -/
def identifierPfxSfx : Option SymbolKind → Option String × Option String
  | some (SymbolKind.port p) => (p.pfx, p.sfx)
  | some (SymbolKind.variable p) => (p.pfx, p.sfx)
  | some _ => (none, none)
  | none => (none, none)

/-- `Aligner::hierarchical_identifier` (emitter lines 310-321): the same
extraction, except that a failed resolve runs into `unreachable!()` — a
panic, modelled as `Except.error`. -/
def hierarchicalIdentifierPfxSfx :
    Option SymbolKind → Except String (Option String × Option String)
  | some (SymbolKind.port p) => Except.ok (p.pfx, p.sfx)
  | some (SymbolKind.variable p) => Except.ok (p.pfx, p.sfx)
  | some _ => Except.ok (none, none)
  | none => Except.error "unreachable"

/-- `Aligner::inst_port_item` (emitter lines 873-882): also panics via
`unreachable!()` when the port identifier does not resolve. -/
def instPortItemPfxSfx :
    Option SymbolKind → Except String (Option String × Option String)
  | some (SymbolKind.port p) => Except.ok (p.pfx, p.sfx)
  | some (SymbolKind.variable p) => Except.ok (p.pfx, p.sfx)
  | some _ => Except.ok (none, none)
  | none => Except.error "unreachable"

/-- C4 counterexample: in `Aligner::hierarchical_identifier` a not-found
result from `symbol_table::resolve` does not degrade to `(None, None)` —
it panics (`unreachable!()`), so the alignment engine can fail. -/
theorem aligner_resolve_panic_counterexample :
    hierarchicalIdentifierPfxSfx none ≠
      Except.ok ((none : Option String), (none : Option String)) ∧
    hierarchicalIdentifierPfxSfx none = Except.error "unreachable" := by
  refine ⟨fun h => Except.noConfusion h, rfl⟩

/-- C4 amended: only `Aligner::identifier` degrades gracefully to
`(None, None)` when `symbol_table::resolve` returns not-found;
`hierarchical_identifier` and `inst_port_item` panic (`unreachable!()`)
on a failed resolve, so the engine is not total on unresolvable input. -/
theorem aligner_resolve_behavior :
    identifierPfxSfx none = ((none : Option String), (none : Option String)) ∧
    hierarchicalIdentifierPfxSfx none = Except.error "unreachable" ∧
    instPortItemPfxSfx none = Except.error "unreachable" :=
  ⟨rfl, rfl, rfl⟩

/-! ## The merged additions map is the per-kind sum (C5) -/

/-- Sum of all values recorded at one key. -/
def sumAt : List (Location × Nat) → Location → Nat
  | [], _ => 0
  | p :: rest, k => (if p.1 = k then p.2 else 0) + sumAt rest k

theorem getLoc_insertAdd (m : List (Location × Nat)) (k : Location) (v : Nat)
    (q : Location) :
    getLoc (insertAdd m k v) q = getLoc m q + (if q = k then v else 0) := by
  induction m with
  | nil =>
    simp only [insertAdd, getLoc]
    by_cases h : k = q
    · subst h; simp
    · rw [if_neg h, if_neg fun hh => h hh.symm]
  | cons p rest ih =>
    simp only [insertAdd]
    by_cases hpk : p.1 = k
    · rw [if_pos hpk]
      simp only [getLoc]
      by_cases hpq : p.1 = q
      · rw [if_pos hpq, if_pos hpq, if_pos (by rw [← hpq, hpk])]
      · rw [if_neg hpq, if_neg hpq,
          if_neg fun hh => hpq (by rw [hpk, ← hh])]
        omega
    · rw [if_neg hpk]
      simp only [getLoc]
      by_cases hpq : p.1 = q
      · rw [if_pos hpq, if_pos hpq,
          if_neg fun hh => hpk (by rw [hpq, hh])]
        omega
      · rw [if_neg hpq, if_neg hpq, ih]

theorem getLoc_mergeList (adds : List (Location × Nat))
    (pub : List (Location × Nat)) (q : Location) :
    getLoc (mergeList pub adds) q = getLoc pub q + sumAt adds q := by
  induction adds generalizing pub with
  | nil => simp [mergeList, sumAt]
  | cons p rest ih =>
    show getLoc (mergeList (insertAdd pub p.1 p.2) rest) q = _
    rw [ih, getLoc_insertAdd]
    simp only [sumAt]
    by_cases h : p.1 = q
    · rw [if_pos h, if_pos h.symm]; omega
    · rw [if_neg h, if_neg fun hh => h hh.symm]; omega

/-- Key uniqueness of an association list, the invariant of every HashMap
image. -/
def keysNodup (m : List (Location × Nat)) : Prop := (m.map Prod.fst).Nodup

theorem sumAt_eq_zero (m : List (Location × Nat)) (q : Location)
    (h : q ∉ m.map Prod.fst) : sumAt m q = 0 := by
  induction m with
  | nil => rfl
  | cons p rest ih =>
    simp only [List.map_cons, List.mem_cons, not_or] at h
    simp only [sumAt]
    rw [if_neg fun hh => h.1 hh.symm, ih h.2]

theorem sumAt_eq_getLoc (m : List (Location × Nat)) (q : Location)
    (h : keysNodup m) : sumAt m q = getLoc m q := by
  induction m with
  | nil => rfl
  | cons p rest ih =>
    have h' : p.1 ∉ rest.map Prod.fst ∧ (rest.map Prod.fst).Nodup := by
      rw [keysNodup, List.map_cons, List.nodup_cons] at h
      exact h
    simp only [sumAt, getLoc]
    by_cases hpq : p.1 = q
    · rw [if_pos hpq, if_pos hpq, sumAt_eq_zero rest q (by rw [← hpq]; exact h'.1)]
      omega
    · rw [if_neg hpq, if_neg hpq, ih h'.2]
      omega

theorem mem_keys_insertOver :
    ∀ (m : List (Location × Nat)) (k : Location) (v : Nat) (x : Location),
      x ∈ (insertOver m k v).map Prod.fst → x ∈ m.map Prod.fst ∨ x = k := by
  intro m k v
  induction m with
  | nil =>
    intro x hx
    simp [insertOver] at hx
    exact Or.inr hx
  | cons p rest ih =>
    intro x hx
    simp only [insertOver] at hx
    by_cases hpk : p.1 = k
    · rw [if_pos hpk] at hx
      simp only [List.map_cons, List.mem_cons] at hx ⊢
      rcases hx with h | h
      · exact Or.inr h
      · exact Or.inl (Or.inr h)
    · rw [if_neg hpk] at hx
      simp only [List.map_cons, List.mem_cons] at hx ⊢
      rcases hx with h | h
      · exact Or.inl (Or.inl h)
      · rcases ih x h with h1 | h1
        · exact Or.inl (Or.inr h1)
        · exact Or.inr h1

theorem keysNodup_insertOver (m : List (Location × Nat)) (k : Location)
    (v : Nat) (h : keysNodup m) : keysNodup (insertOver m k v) := by
  induction m with
  | nil => simp [insertOver, keysNodup]
  | cons p rest ih =>
    have h' : p.1 ∉ rest.map Prod.fst ∧ (rest.map Prod.fst).Nodup := by
      rw [keysNodup, List.map_cons, List.nodup_cons] at h
      exact h
    simp only [insertOver]
    by_cases hpk : p.1 = k
    · rw [if_pos hpk]
      subst hpk
      rw [keysNodup, List.map_cons] at h ⊢
      exact h
    · rw [if_neg hpk]
      simp only [keysNodup, List.map_cons, List.nodup_cons]
      constructor
      · intro hmem
        rcases mem_keys_insertOver rest k v p.1 hmem with h1 | h1
        · exact h'.1 h1
        · exact hpk h1
      · exact ih h'.2

theorem keysNodup_foldl_insertOver (f : Location × Nat → Nat)
    (rest : List (Location × Nat)) (m : List (Location × Nat))
    (h : keysNodup m) :
    keysNodup (rest.foldl (fun acc p => insertOver acc p.1 (f p)) m) := by
  induction rest generalizing m with
  | nil => exact h
  | cons p r ih => exact ih _ (keysNodup_insertOver _ _ _ h)

theorem keysNodup_finishGroup (a : Align) (h : keysNodup a.additions) :
    keysNodup a.finishGroup.additions :=
  keysNodup_foldl_insertOver (fun p => a.maxWidth - p.2) a.rest a.additions h

theorem additions_finishItem (a : Align) :
    (Align.finishItem a).additions = a.additions ∨
    (Align.finishItem a).additions = a.finishGroup.additions := by
  unfold Align.finishItem
  cases a.lastLocation with
  | none => exact Or.inl rfl
  | some loc =>
    by_cases hl : loc.line - a.line > 1
    · simp only [if_pos hl]
      exact Or.inr trivial
    · simp only [if_neg hl]
      exact Or.inl trivial

theorem keysNodup_finishItem (a : Align) (h : keysNodup a.additions) :
    keysNodup a.finishItem.additions := by
  rcases additions_finishItem a with he | he
  · rw [he]; exact h
  · rw [he]; exact keysNodup_finishGroup a h

/-- Key uniqueness of every per-kind additions map. -/
def alignsNodup {n : Nat} (st : AlignerSt n) : Prop :=
  ∀ i, keysNodup (st.aligns i).additions

theorem additions_token (a : Align) (t : Token) :
    (Align.token a t).additions = a.additions := by
  unfold Align.token; split <;> rfl

theorem additions_space (a : Align) (k : Nat) :
    (Align.space a k).additions = a.additions := by
  unfold Align.space; split <;> rfl

theorem additions_dummyLocation (a : Align) (loc : Location) :
    (Align.dummyLocation a loc).additions = a.additions := by
  unfold Align.dummyLocation; split <;> rfl

theorem additions_duplicatedToken (a : Align) (t : Token) (i : Nat) :
    (Align.duplicatedToken a t i).additions = a.additions := by
  unfold Align.duplicatedToken; split <;> rfl

theorem additions_dummyToken (a : Align) (t : Token) :
    (Align.dummyToken a t).additions = a.additions := by
  unfold Align.dummyToken; split <;> rfl

theorem keysNodup_updAlign {n : Nat} (st : AlignerSt n) (i : Fin n)
    (f : Align → Align) (h : alignsNodup st)
    (hf : ∀ a, keysNodup a.additions → keysNodup (f a).additions) :
    alignsNodup (updAlign st i f) := by
  intro j
  simp only [updAlign]
  by_cases hj : j = i
  · rw [if_pos hj]; exact hf _ (h j)
  · rw [if_neg hj]; exact h j

theorem alignsNodup_applyE (st : AlignerSt 8) (e : EEvent)
    (h : alignsNodup st) : alignsNodup (applyE st e) := by
  cases e with
  | tokenAll t =>
    intro i; simp only [applyE, mapAligns]; rw [additions_token]; exact h i
  | spaceAll k =>
    intro i; simp only [applyE, mapAligns]; rw [additions_space]; exact h i
  | startItem i => exact keysNodup_updAlign st i _ h fun a ha => ha
  | finishItem i =>
    exact keysNodup_updAlign st i _ h fun a ha => keysNodup_finishItem a ha
  | dummyLocation i loc =>
    exact keysNodup_updAlign st i _ h fun a ha => by
      rw [additions_dummyLocation]; exact ha
  | dummyAtLast i src =>
    simp only [applyE]
    cases (st.aligns src).lastLocation with
    | none => exact h
    | some loc =>
      exact keysNodup_updAlign st i _ h fun a ha => by
        rw [additions_dummyLocation]; exact ha
  | duplicatedToken i t idx =>
    exact keysNodup_updAlign st i _ h fun a ha => by
      rw [additions_duplicatedToken]; exact ha
  | finishGroupAll =>
    intro i; simp only [applyE, mapAligns]; exact keysNodup_finishGroup _ (h i)
  | inExprPush => exact h
  | inExprPop => exact h

theorem alignsNodup_applyF (st : AlignerSt 9) (e : FEvent)
    (h : alignsNodup st) : alignsNodup (applyF st e) := by
  cases e with
  | tokenAll t =>
    intro i; simp only [applyF, mapAligns]; rw [additions_token]; exact h i
  | spaceAll k =>
    intro i; simp only [applyF, mapAligns]; rw [additions_space]; exact h i
  | startItem i => exact keysNodup_updAlign st i _ h fun a ha => ha
  | finishItem i =>
    exact keysNodup_updAlign st i _ h fun a ha => keysNodup_finishItem a ha
  | dummyLocation i loc =>
    exact keysNodup_updAlign st i _ h fun a ha => by
      rw [additions_dummyLocation]; exact ha
  | dummyAtLast i src =>
    simp only [applyF]
    cases (st.aligns src).lastLocation with
    | none => exact h
    | some loc =>
      exact keysNodup_updAlign st i _ h fun a ha => by
        rw [additions_dummyLocation]; exact ha
  | dummyToken i t =>
    exact keysNodup_updAlign st i _ h fun a ha => by
      rw [additions_dummyToken]; exact ha
  | insertDirect t w => exact h
  | finishGroupAll =>
    intro i; simp only [applyF, mapAligns]; exact keysNodup_finishGroup _ (h i)
  | inExprPush => exact h
  | inExprPop => exact h

theorem alignsNodup_runE (es : List EEvent) (st : AlignerSt 8)
    (h : alignsNodup st) : alignsNodup (runE es st) := by
  induction es generalizing st with
  | nil => exact h
  | cons e r ih => exact ih _ (alignsNodup_applyE _ _ h)

theorem alignsNodup_runF (fs : List FEvent) (st : AlignerSt 9)
    (h : alignsNodup st) : alignsNodup (runF fs st) := by
  induction fs generalizing st with
  | nil => exact h
  | cons e r ih => exact ih _ (alignsNodup_applyF _ _ h)

theorem alignsNodup_finishAll {n : Nat} (st : AlignerSt n)
    (h : alignsNodup st) : alignsNodup (finishAll st) :=
  fun i => keysNodup_finishGroup _ (h i)

/-- The emitter walk never writes the public additions map. -/
theorem additions_applyE (st : AlignerSt 8) (e : EEvent) :
    (applyE st e).additions = st.additions := by
  cases e with
  | dummyAtLast i src =>
    simp only [applyE]
    cases (st.aligns src).lastLocation with
    | none => rfl
    | some loc => rfl
  | tokenAll t => rfl
  | spaceAll k => rfl
  | startItem i => rfl
  | finishItem i => rfl
  | dummyLocation i loc => rfl
  | duplicatedToken i t idx => rfl
  | finishGroupAll => rfl
  | inExprPush => rfl
  | inExprPop => rfl

theorem additions_runE (es : List EEvent) (st : AlignerSt 8) :
    (runE es st).additions = st.additions := by
  induction es generalizing st with
  | nil => rfl
  | cons e r ih => rw [show runE (e :: r) st = runE r (applyE st e) from rfl,
      ih, additions_applyE]

theorem getLoc_foldl_mergeKinds {n : Nat} (aligns : Fin n → Align)
    (idx : List (Fin n)) (pub : List (Location × Nat)) (q : Location)
    (h : ∀ i, keysNodup (aligns i).additions) :
    getLoc (idx.foldl (fun pub i => mergeList pub ((aligns i).additions)) pub) q =
      getLoc pub q + (idx.map fun i => getLoc ((aligns i).additions) q).sum := by
  induction idx generalizing pub with
  | nil => simp
  | cons i r ih =>
    show getLoc (r.foldl _ (mergeList pub ((aligns i).additions))) q = _
    rw [ih, getLoc_mergeList, sumAt_eq_getLoc _ _ (h i)]
    simp only [List.map_cons, List.sum_cons]
    omega

theorem getLoc_mergeAll {n : Nat} (st : AlignerSt n) (q : Location)
    (h : alignsNodup st) :
    getLoc (mergeAll st) q =
      getLoc st.additions q +
        ((List.finRange n).map fun i => getLoc ((st.aligns i).additions) q).sum :=
  getLoc_foldl_mergeKinds st.aligns (List.finRange n) st.additions q h

/-- C5 amended: after `align()` returns, for the emitter aligner the public
additions map equals at every location the sum over all eight kinds of that
kind's additions; for the formatter aligner it equals the direct insertions
made by `Aligner::insert` during the walk plus the sum over all nine kinds. -/
theorem merge_additions_sum :
    (∀ (es : List EEvent) (q : Location),
      getLoc (alignE es).additions q =
        ((List.finRange 8).map fun i =>
          getLoc ((finishAll (runE es {})).aligns i).additions q).sum) ∧
    (∀ (fs : List FEvent) (q : Location),
      getLoc (alignF fs).additions q =
        getLoc (runF fs {}).additions q +
        ((List.finRange 9).map fun i =>
          getLoc ((finishAll (runF fs {})).aligns i).additions q).sum) := by
  constructor
  · intro es q
    have hnd : alignsNodup (finishAll (runE es {})) :=
      alignsNodup_finishAll _ (alignsNodup_runE es {} fun i => List.nodup_nil)
    have h0 : (finishAll (runE es {})).additions = [] := additions_runE es {}
    show getLoc (mergeAll (finishAll (runE es {}))) q = _
    rw [getLoc_mergeAll _ _ hnd, h0]
    simp [getLoc]
  · intro fs q
    have hnd : alignsNodup (finishAll (runF fs {})) :=
      alignsNodup_finishAll _ (alignsNodup_runF fs {} fun i => List.nodup_nil)
    show getLoc (mergeAll (finishAll (runF fs {}))) q = _
    rw [getLoc_mergeAll _ _ hnd]
    rfl

/-- Alignment-kind indices of the formatter (`align_kind`, formatter lines
104-114). -/
def fIDENTIFIER : Fin 9 := 0

def fEXPRESSION : Fin 9 := 2

/-- The formatter `inst_parameter_item` handler (lines 740-756) in the
branch without an explicit value: an IDENTIFIER item around the
identifier, a direct `insert` of `": ".len()` = 2 at the identifier
location, and a zero-width EXPRESSION dummy item at the same location. -/
def instParameterItemNoneEvents (idTok : Token) : List FEvent :=
  [FEvent.startItem fIDENTIFIER, FEvent.tokenAll idTok,
   FEvent.finishItem fIDENTIFIER, FEvent.insertDirect idTok 2,
   FEvent.startItem fEXPRESSION, FEvent.dummyToken fEXPRESSION idTok,
   FEvent.finishItem fEXPRESSION]

def c5tok : Token := ⟨1, 1, 1, 9, 3⟩

/-- C5 counterexample: for a formatter walk containing an
`inst_parameter_item` without an explicit value, the public additions map
after `align()` holds 2 at the identifier location (from the direct
`Aligner::insert`), while the per-kind additions sum to 0 there — so the
merged map does not equal the sum over alignment kinds. -/
theorem formatter_merge_sum_counterexample :
    getLoc (alignF (instParameterItemNoneEvents c5tok)).additions
        (Location.ofToken c5tok) ≠
      ((List.finRange 9).map fun i =>
        getLoc ((finishAll (runF (instParameterItemNoneEvents c5tok) {})).aligns
          i).additions (Location.ofToken c5tok)).sum := by
  decide

/-! ## The emitter walk over let declarations (C7) and the scalar-type
guard (C10) -/

/-- Alignment-kind indices of the emitter (`align_kind`, emitter lines
120-129). -/
def eIDENTIFIER : Fin 8 := 0

def eTYPE : Fin 8 := 1

def eWIDTH : Fin 8 := 3

def eARRAY : Fin 8 := 4

/-- Width annotation `<expr>` with a single expression. -/
structure WidthA where
  lAngle : Token
  exprTok : Token
  rAngle : Token

/-- Array annotation `[expr]` with a single expression. -/
structure ArrayA where
  lBracket : Token
  exprTok : Token
  rBracket : Token

/-- A scalar type of the `FactorType`/`VariableType` shape (such as
`logic` with an optional width), the branch taken by a `let` declaration
of a builtin variable type. -/
structure ScalarTypeA where
  typeTok : Token
  widthOpt : Option WidthA

structure ArrayTypeA where
  scalarType : ScalarTypeA
  arrayOpt : Option ArrayA

/-- The tokens of one `LetDeclaration` with a single-factor initializer
expression. -/
structure LetDeclA where
  letTok : Token
  idTok : Token
  colonTok : Token
  arrayType : ArrayTypeA
  equTok : Token
  exprTok : Token
  semiTok : Token

/-- The emitter `expression` chain (lines 366-500) on a single-factor
expression: push the `in_expression` marker, emit the factor token through
`veryl_token`, pop.  With no binary operators no virtual spaces arise. -/
def expressionE (t : Token) (st : AlignerSt 8) : AlignerSt 8 :=
  applyE (applyE (applyE st EEvent.inExprPush) (EEvent.tokenAll t)) EEvent.inExprPop

/-- Emitter `width` (lines 515-526) with one expression: the angle
brackets around the expression plus the virtual `"-1:0"` rendering space
of length 4. -/
def widthE (w : WidthA) (st : AlignerSt 8) : AlignerSt 8 :=
  applyE (applyE (expressionE w.exprTok (applyE st (EEvent.tokenAll w.lAngle)))
    (EEvent.spaceAll 4)) (EEvent.tokenAll w.rAngle)

/-- Emitter `array` (lines 528-539) with one expression. -/
def arrayE (arr : ArrayA) (st : AlignerSt 8) : AlignerSt 8 :=
  applyE (applyE (expressionE arr.exprTok (applyE st (EEvent.tokenAll arr.lBracket)))
    (EEvent.spaceAll 4)) (EEvent.tokenAll arr.rBracket)

/-- Emitter `scalar_type` (lines 555-604), `FactorType`/`VariableType`
branch: return immediately inside an expression; otherwise open a TYPE
item with the implicit-type dummy space, emit the type token, close TYPE,
open a WIDTH item that is either the real width or a zero-width dummy
anchored at TYPE's last location, and close it. -/
def scalarTypeE (a : ScalarTypeA) (st : AlignerSt 8) : AlignerSt 8 :=
  if st.inExpression ≠ [] then st
  else
    applyE
      (match a.widthOpt with
        | some w =>
          widthE w (applyE
            (applyE
              (applyE
                (applyE
                  (applyE (applyE st (EEvent.startItem eTYPE)) (EEvent.spaceAll 1))
                  (EEvent.tokenAll a.typeTok))
                (EEvent.finishItem eTYPE))
              (EEvent.startItem eWIDTH))
            (EEvent.spaceAll 1))
        | none =>
          applyE
            (applyE
              (applyE
                (applyE
                  (applyE (applyE st (EEvent.startItem eTYPE)) (EEvent.spaceAll 1))
                  (EEvent.tokenAll a.typeTok))
                (EEvent.finishItem eTYPE))
              (EEvent.startItem eWIDTH))
            (EEvent.dummyAtLast eWIDTH eTYPE))
      (EEvent.finishItem eWIDTH)

/-- Emitter `array_type` (lines 606-618): the scalar type, then an ARRAY
item that is either the real array or a zero-width dummy anchored at the
IDENTIFIER kind's last location. -/
def arrayTypeE (a : ArrayTypeA) (st : AlignerSt 8) : AlignerSt 8 :=
  applyE
    (match a.arrayOpt with
      | some arr =>
        arrayE arr (applyE (applyE (scalarTypeE a.scalarType st)
          (EEvent.startItem eARRAY)) (EEvent.spaceAll 1))
      | none =>
        applyE (applyE (scalarTypeE a.scalarType st) (EEvent.startItem eARRAY))
          (EEvent.dummyAtLast eARRAY eIDENTIFIER))
    (EEvent.finishItem eARRAY)

/-- Emitter `let_declaration` (lines 706-717): the `let` keyword, an
IDENTIFIER item around the identifier (whose resolve yields no
prefix/suffix here, leaving the token unchanged), the colon, the array
type, `=`, the expression and the semicolon. -/
def letDeclarationE (d : LetDeclA) (st : AlignerSt 8) : AlignerSt 8 :=
  applyE
    (expressionE d.exprTok
      (applyE
        (arrayTypeE d.arrayType
          (applyE
            (applyE
              (applyE
                (applyE (applyE st (EEvent.tokenAll d.letTok))
                  (EEvent.startItem eIDENTIFIER))
                (EEvent.tokenAll d.idTok))
              (EEvent.finishItem eIDENTIFIER))
            (EEvent.tokenAll d.colonTok)))
        (EEvent.tokenAll d.equTok)))
    (EEvent.tokenAll d.semiTok)

/-- Formatter kind indices used by `scalar_type`. -/
def fTYPE : Fin 9 := 1

def fWIDTH : Fin 9 := 3

/-- The formatter `expression` chain (lines 178-311) on a single factor. -/
def expressionF (t : Token) (st : AlignerSt 9) : AlignerSt 9 :=
  applyF (applyF (applyF st FEvent.inExprPush) (FEvent.tokenAll t)) FEvent.inExprPop

/-- Formatter `width` (lines 412-421) with one expression: the tokens
verbatim, no virtual spaces. -/
def widthF (w : WidthA) (st : AlignerSt 9) : AlignerSt 9 :=
  applyF (expressionF w.exprTok (applyF st (FEvent.tokenAll w.lAngle)))
    (FEvent.tokenAll w.rAngle)

/-- Formatter `scalar_type` (lines 436-482), `FactorType`/`VariableType`
branch: same structure as the emitter's, without the leading implicit-type
space. -/
def scalarTypeF (a : ScalarTypeA) (st : AlignerSt 9) : AlignerSt 9 :=
  if st.inExpression ≠ [] then st
  else
    applyF
      (match a.widthOpt with
        | some w =>
          widthF w
            (applyF
              (applyF
                (applyF (applyF st (FEvent.startItem fTYPE)) (FEvent.tokenAll a.typeTok))
                (FEvent.finishItem fTYPE))
              (FEvent.startItem fWIDTH))
        | none =>
          applyF
            (applyF
              (applyF
                (applyF (applyF st (FEvent.startItem fTYPE)) (FEvent.tokenAll a.typeTok))
                (FEvent.finishItem fTYPE))
              (FEvent.startItem fWIDTH))
            (FEvent.dummyAtLast fWIDTH fTYPE))
      (FEvent.finishItem fWIDTH)

/-- C10: while any `Expression` is being walked (the `in_expression`
marker stack is non-empty), `scalar_type` returns immediately in both the
emitter and the formatter aligner — the state is unchanged, so no TYPE or
WIDTH item is created and nothing is contributed to the additions map. -/
theorem scalar_type_skipped_in_expression (a : ScalarTypeA)
    (st : AlignerSt 8) (st' : AlignerSt 9)
    (h : st.inExpression ≠ []) (h' : st'.inExpression ≠ []) :
    scalarTypeE a st = st ∧ scalarTypeF a st' = st' := by
  constructor
  · simp [scalarTypeE, h]
  · simp [scalarTypeF, h']

def c10arg : ScalarTypeA := ⟨⟨900, 900, 9, 1, 5⟩, none⟩

def c10stE : AlignerSt 8 := { inExpression := [()] }

def c10stF : AlignerSt 9 := { inExpression := [()] }

theorem scalar_type_skipped_in_expression_witness :
    scalarTypeE c10arg c10stE = c10stE ∧ scalarTypeF c10arg c10stF = c10stF :=
  scalar_type_skipped_in_expression c10arg c10stE c10stF
    (by decide) (by decide)

/-- Token constructor for the C7 scenario (`text` reuses the id). -/
def c7tok (i ln col len : Nat) : Token := ⟨i, i, ln, col, len⟩

/-- `let aaa: logic<8> = 0;` on line 1, identifier length 3. -/
def c7d1 : LetDeclA :=
  ⟨c7tok 100 1 1 3, c7tok 101 1 5 3, c7tok 102 1 8 1,
   ⟨⟨c7tok 103 1 10 5, some ⟨c7tok 104 1 15 1, c7tok 105 1 16 1, c7tok 106 1 17 1⟩⟩,
    none⟩,
   c7tok 107 1 19 1, c7tok 108 1 21 1, c7tok 109 1 22 1⟩

/-- `let bbbbb: logic<8> = 0;` on line 2, identifier length 5. -/
def c7d2 : LetDeclA :=
  ⟨c7tok 200 2 1 3, c7tok 201 2 5 5, c7tok 202 2 10 1,
   ⟨⟨c7tok 203 2 12 5, some ⟨c7tok 204 2 17 1, c7tok 205 2 18 1, c7tok 206 2 19 1⟩⟩,
    none⟩,
   c7tok 207 2 21 1, c7tok 208 2 23 1, c7tok 209 2 24 1⟩

/-- `let cccc: logic<8> = 0;` on line 3, identifier length 4. -/
def c7d3 : LetDeclA :=
  ⟨c7tok 300 3 1 3, c7tok 301 3 5 4, c7tok 302 3 9 1,
   ⟨⟨c7tok 303 3 11 5, some ⟨c7tok 304 3 16 1, c7tok 305 3 17 1, c7tok 306 3 18 1⟩⟩,
    none⟩,
   c7tok 307 3 20 1, c7tok 308 3 22 1, c7tok 309 3 23 1⟩

/-- The aligner state after walking the three declarations. -/
def c7state : AlignerSt 8 :=
  letDeclarationE c7d3 (letDeclarationE c7d2 (letDeclarationE c7d1 {}))

/-- The public additions map after `align()`. -/
def c7final : AlignerSt 8 := alignRun c7state

set_option maxRecDepth 100000 in
/-- C7 counterexample: the computed additions map holds no entry at the
colon token of any of the three declarations — the padding is not keyed to
(and hence not inserted before) the colons. -/
theorem let_align_colon_counterexample :
    lookupLoc c7final.additions (Location.ofToken (c7tok 102 1 8 1)) = none ∧
    lookupLoc c7final.additions (Location.ofToken (c7tok 202 2 10 1)) = none ∧
    lookupLoc c7final.additions (Location.ofToken (c7tok 302 3 9 1)) = none := by
  decide

set_option maxRecDepth 100000 in
/-- C7 amended: for three `let` declarations on consecutive lines with
identifiers of lengths 3, 5 and 4, the computed additions map inserts 2, 0
and 1 spaces keyed to (and therefore inserted immediately before) the
identifier token of each declaration, which right-aligns the identifiers so
that the three colons line up. -/
theorem let_align_identifier_additions :
    lookupLoc c7final.additions (Location.ofToken (c7tok 101 1 5 3)) = some 2 ∧
    lookupLoc c7final.additions (Location.ofToken (c7tok 201 2 5 5)) = some 0 ∧
    lookupLoc c7final.additions (Location.ofToken (c7tok 301 3 5 4)) = some 1 := by
  decide

end Vrl
